import Mathlib

/-!
Verification of the QVM factor pipeline in `src/app.py` (StockRealValue).

The numeric cells of the pipeline are pandas float64 cells; we embed a defined
cell as `some (q : ℚ)` and a NaN cell as `none`.  Where IEEE arithmetic can
produce signed infinities, an explicit result type (`PdFloat`, `KVal`) makes
them distinguishable from NaN.  The SQL loading, pivoting and sorting glue is
excluded I/O: each `(security, account)` group is presented to the embedded
functions as its date-ordered list of reported values, exactly the view the
pandas code obtains after `sort_values` and `groupby`.
-/

set_option linter.unusedVariables false

deriving instance DecidableEq for Except

namespace StockRealValue

/-- A pandas float64 cell as produced by arithmetic on TTM cells:
a finite value, a signed infinity, or NaN. -/
inductive PdFloat where
  | nan : PdFloat
  | pinf : PdFloat
  | ninf : PdFloat
  | val : ℚ → PdFloat
deriving DecidableEq

/-! ### Financial aggregator (`process_financial_statements`, src/app.py lines 144-176)

`fs_list_sorted.groupby([code, account])[value].rolling(window=4, min_periods=4).sum()`
holds, at each row of a group, the sum of the window of the 4 rows ending
there, and NaN while fewer than 4 rows are available.  `groupby(...).tail(1)`
keeps the last row of each group, and
`np.where(계정.isin(["자산", "자본"]), ttm_temp / 4, ttm_temp)` divides the
stock accounts by 4. -/

/-- The rolling `window=4, min_periods=4` sum over a date-ordered value column:
position `i` holds the sum of entries `i-3 .. i`, and `none` (NaN) for `i < 3`. -/
def rollingSum4 (vals : List ℚ) : List (Option ℚ) :=
  (List.range vals.length).map (fun i =>
    if 3 ≤ i then some (((vals.take (i + 1)).drop (i - 3)).sum) else none)

/-- The step `groupby(...).tail(1)` applied to the rolling column: the rolling value at
the last (most recent) row of the group; `none` for an empty group. -/
def lastTtmTemp (vals : List ℚ) : Option ℚ :=
  ((rollingSum4 vals).getLast?).bind id

/-- The test `계정.isin(["자산", "자본"])` of line 160. -/
def isStockAcct (acct : String) : Bool :=
  acct == "자산" || acct == "자본"

/-- The TTM cell for one `(security, account)` group, `vals` being the reported values of
the group ordered by period end date (oldest first): the rolling sum at the
last row of the group, divided by 4 for the stock accounts. -/
def ttmOf (acct : String) (vals : List ℚ) : Option ℚ :=
  (lastTtmTemp vals).map (fun s => if isStockAcct acct then s / 4 else s)

/-- The flow accounts loaded by the pipeline (income / cash-flow items). -/
def flowAccts : List String :=
  ["당기순이익", "매출총이익", "영업활동으로인한현금흐름"]

/-- The stock accounts (balance-sheet items averaged over 4 quarters). -/
def stockAccts : List String :=
  ["자산", "자본"]

/-- pandas float64 division of two TTM cells (`fs_list_pivot[a] / fs_list_pivot[b]`,
lines 171-173): NaN if either operand is NaN, the quotient for a nonzero
denominator, and for a zero denominator the IEEE result: `+inf` for a positive
numerator, `-inf` for a negative one, NaN for `0/0`. -/
def ttmDiv : Option ℚ → Option ℚ → PdFloat
  | some a, some b =>
      if b ≠ 0 then .val (a / b)
      else if 0 < a then .pinf
      else if a < 0 then .ninf
      else .nan
  | _, _ => .nan

/-- The derived-ratio cells of one security row of `fs_list_pivot`. -/
structure FsRowOut where
  roe : PdFloat
  gpa : PdFloat
  cfo : PdFloat
deriving DecidableEq

/-- The function `process_financial_statements` restricted to one security: the five
date-ordered account groups in, the derived ratio cells out (lines 151-173). -/
def fsRatios (ni gp cf assets equity : List ℚ) : FsRowOut :=
  { roe := ttmDiv (ttmOf "당기순이익" ni) (ttmOf "자본" equity)
    gpa := ttmDiv (ttmOf "매출총이익" gp) (ttmOf "자산" assets)
    cfo := ttmDiv (ttmOf "영업활동으로인한현금흐름" cf) (ttmOf "자산" assets) }

lemma lastTtmTemp_eq (vals : List ℚ) :
    lastTtmTemp vals =
      if 4 ≤ vals.length then some ((vals.drop (vals.length - 4)).sum) else none := by
  unfold lastTtmTemp rollingSum4
  rcases hlen : vals.length with _ | m
  · simp
  · rw [List.range_succ, List.map_append]
    simp only [List.map_cons, List.map_nil, List.getLast?_concat, Option.some_bind, id]
    have ht : vals.take (m + 1) = vals := by
      rw [← hlen]; exact vals.take_length
    rw [ht]
    rcases Nat.lt_or_ge m 3 with h3 | h3
    · rw [if_neg (by omega), if_neg (by omega)]
    · have h4 : m - 3 = m + 1 - 4 := by omega
      rw [if_pos h3, if_pos (by omega), h4]

/-- Claim C4: for every (security, account) group presented in period order,
a group with at least 4 observations yields a TTM equal to the sum of the 4
most recent values for a flow account, and to their average (sum divided by 4)
for a stock account; a group with fewer than 4 observations yields an
undefined TTM. -/
theorem ttm_window_correct (acct : String) (vals : List ℚ) :
    (vals.length < 4 → ttmOf acct vals = none)
    ∧ (4 ≤ vals.length → acct ∈ flowAccts →
        ttmOf acct vals = some ((vals.drop (vals.length - 4)).sum))
    ∧ (4 ≤ vals.length → acct ∈ stockAccts →
        ttmOf acct vals = some ((vals.drop (vals.length - 4)).sum / 4)) := by
  refine ⟨fun h => ?_, fun h hf => ?_, fun h hs => ?_⟩
  · have hn : ¬ 4 ≤ vals.length := by omega
    simp [ttmOf, lastTtmTemp_eq, hn]
  · have hstock : isStockAcct acct = false := by
      simp only [flowAccts, List.mem_cons, List.not_mem_nil, or_false] at hf
      rcases hf with rfl | rfl | rfl <;> rfl
    simp [ttmOf, lastTtmTemp_eq, h, hstock]
  · have hstock : isStockAcct acct = true := by
      simp only [stockAccts, List.mem_cons, List.not_mem_nil, or_false] at hs
      rcases hs with rfl | rfl <;> rfl
    simp [ttmOf, lastTtmTemp_eq, h, hstock]

unseal Rat.add Rat.mul Rat.inv Rat.sub Rat.ofScientific in
/-- Witness for C4: quarterly net income `[10, 12, 11, 13, 9]` (oldest first)
gives TTM `12 + 11 + 13 + 9 = 45`; four quarters of assets `[8, 2, 4, 2]`
average to `4`; three quarters of gross profit give no TTM. -/
theorem ttm_window_correct_apply :
    ttmOf "당기순이익" [10, 12, 11, 13, 9] = some 45
    ∧ ttmOf "자산" [8, 2, 4, 2] = some 4
    ∧ ttmOf "매출총이익" [1, 2, 3] = none := by
  refine ⟨?_, ?_, ?_⟩
  · exact ((ttm_window_correct "당기순이익" [10, 12, 11, 13, 9]).2.1 (by decide)
      (by decide)).trans (by decide)
  · exact ((ttm_window_correct "자산" [8, 2, 4, 2]).2.2 (by decide)
      (by decide)).trans (by decide)
  · exact (ttm_window_correct "매출총이익" [1, 2, 3]).1 (by decide)

unseal Rat.add Rat.mul Rat.inv Rat.sub Rat.ofScientific in
/-- Claim C5, counterexample: four quarters of net income `[1, 1, 1, 1]`
(TTM 4) over four quarters of equity `[1, -1, 1, -1]` (four-quarter average
exactly 0) make `process_financial_statements` produce ROE = +inf — a numeric
infinite fallback, not an undefined value, contradicting the claim that a zero
denominator always propagates undefined. -/
theorem roe_zero_denominator_inf :
    (fsRatios [1, 1, 1, 1] [] [] [] [1, -1, 1, -1]).roe = PdFloat.pinf
    ∧ PdFloat.pinf ≠ PdFloat.nan := by
  decide

/-- The division behaviour the ratio cells actually have: NaN exactly when an
operand is undefined or both numerator and denominator are zero; a nonzero
numerator over a zero denominator gives a signed infinity; otherwise the exact
quotient. -/
def divSpec (a b : Option ℚ) (r : PdFloat) : Prop :=
  (r = PdFloat.nan ↔ a = none ∨ b = none ∨ (a = some 0 ∧ b = some 0))
  ∧ (∀ x y, a = some x → b = some y → y ≠ 0 → r = PdFloat.val (x / y))
  ∧ (∀ x, a = some x → b = some 0 → 0 < x → r = PdFloat.pinf)
  ∧ (∀ x, a = some x → b = some 0 → x < 0 → r = PdFloat.ninf)

lemma ttmDiv_some_some (x y : ℚ) :
    ttmDiv (some x) (some y) =
      if y ≠ 0 then PdFloat.val (x / y)
      else if 0 < x then PdFloat.pinf
      else if x < 0 then PdFloat.ninf
      else PdFloat.nan := rfl

lemma ttmDiv_spec (a b : Option ℚ) : divSpec a b (ttmDiv a b) := by
  rcases a with _ | x
  · rcases b with _ | y <;> simp [divSpec, ttmDiv]
  · rcases b with _ | y
    · simp [divSpec, ttmDiv]
    · rw [divSpec, ttmDiv_some_some]
      by_cases hy : y = 0
      · subst hy
        rw [if_neg (by simp)]
        rcases lt_trichotomy x 0 with hx | hx | hx
        · rw [if_neg (by linarith), if_pos hx]
          refine ⟨by simp [hx.ne], ?_, ?_, ?_⟩
          · intro u v hu hv hvne
            exact absurd (Option.some.inj hv).symm hvne
          · intro u hu _ h0
            rw [← Option.some.inj hu] at h0
            linarith
          · intro u hu _ _
            rfl
        · subst hx
          rw [if_neg (by simp), if_neg (by simp)]
          refine ⟨by simp, ?_, ?_, ?_⟩
          · intro u v hu hv hvne
            exact absurd (Option.some.inj hv).symm hvne
          · intro u hu _ h0
            rw [← Option.some.inj hu] at h0
            linarith
          · intro u hu _ h0
            rw [← Option.some.inj hu] at h0
            linarith
        · rw [if_pos hx]
          refine ⟨by simp [hx.ne.symm], ?_, ?_, ?_⟩
          · intro u v hu hv hvne
            exact absurd (Option.some.inj hv).symm hvne
          · intro u hu _ _
            rfl
          · intro u hu _ h0
            rw [← Option.some.inj hu] at h0
            linarith
      · rw [if_pos hy]
        refine ⟨by simp [hy], ?_, ?_, ?_⟩
        · intro u v hu hv hvne
          rw [Option.some.inj hu, Option.some.inj hv]
        · intro u hu hv _
          exact absurd (Option.some.inj hv) hy
        · intro u hu hv _
          exact absurd (Option.some.inj hv) hy

/-- Claim C5, amended: each derived ratio (ROE, GPA, CFO) is undefined when
either operand is undefined or when numerator and denominator are both zero;
a zero denominator under a nonzero numerator yields a signed infinite value
(the IEEE quotient), not an undefined one. -/
theorem fs_ratio_division_spec (ni gp cf assets equity : List ℚ) :
    divSpec (ttmOf "당기순이익" ni) (ttmOf "자본" equity)
      (fsRatios ni gp cf assets equity).roe
    ∧ divSpec (ttmOf "매출총이익" gp) (ttmOf "자산" assets)
      (fsRatios ni gp cf assets equity).gpa
    ∧ divSpec (ttmOf "영업활동으로인한현금흐름" cf) (ttmOf "자산" assets)
      (fsRatios ni gp cf assets equity).cfo :=
  ⟨ttmDiv_spec _ _, ttmDiv_spec _ _, ttmDiv_spec _ _⟩

unseal Rat.add Rat.mul Rat.inv Rat.sub Rat.ofScientific in
/-- Witness for the amended C5: net income TTM 4 over equity TTM 2 gives
ROE 2; a missing assets group makes GPA undefined. -/
theorem fs_ratio_division_spec_apply :
    (fsRatios [1, 1, 1, 1] [] [] [] [2, 2, 2, 2]).roe = PdFloat.val 2
    ∧ (fsRatios [1, 1, 1, 1] [] [] [] [2, 2, 2, 2]).gpa = PdFloat.nan := by
  constructor
  · exact ((fs_ratio_division_spec [1, 1, 1, 1] [] [] [] [2, 2, 2, 2]).1.2.1
      4 2 (by decide) (by decide) (by norm_num)).trans (by decide)
  · exact ((fs_ratio_division_spec [1, 1, 1, 1] [] [] [] [2, 2, 2, 2]).2.1.1).mpr
      (by decide)

/-! ### Cross-sectional normalizer (`col_clean`, src/app.py lines 341-358)

`col_clean` receives one metric column of one sector group (a pandas Series).
It returns a NaN series for an empty or all-NaN column, computes the
linear-interpolation quantiles at `cutoff` and `1 - cutoff`, and keeps the
values strictly between them (`df_trim`).  It then evaluates
`df_trim.rank(...).apply(zscore, nan_policy="omit")`.  `Series.apply` with a
non-ufunc callable maps the function over the individual elements, so
`scipy.stats.zscore` receives one scalar rank at a time; `zscore` converts its
argument to a 0-dimensional array and reduces it with `mean(axis=0)`, which
raises `numpy.AxisError` for dimension 0.  Hence: an empty `df_trim` yields an
empty result series (aligning to NaN for every group member), and a non-empty
`df_trim` raises — modelled as `Except.error ()`. -/

/-- Insertion of a value into a sorted list (ascending). -/
def insertSorted (x : ℚ) : List ℚ → List ℚ
  | [] => [x]
  | y :: ys => if x ≤ y then x :: y :: ys else y :: insertSorted x ys

/-- Ascending sort of the defined values, as used by the quantile computation. -/
def sortAsc (l : List ℚ) : List ℚ :=
  l.foldr insertSorted []

/-- The quantile `Series.quantile(q)` with the default linear interpolation, over the
non-NaN values: with sorted values `s_0 .. s_(m-1)` and position
`h = q * (m - 1)`, the result is `s_i + (h - i) * (s_(i+1) - s_i)` where
`i = floor h`.  The positions used by the pipeline satisfy `0 ≤ h`, for which
truncating integer division is the floor. -/
def pdQuantile (q : ℚ) (vals : List ℚ) : ℚ :=
  let s := sortAsc vals
  let h : ℚ := q * ((s.length : ℚ) - 1)
  let i : ℕ := (h.num / (h.den : ℤ)).toNat
  let lo := s.getD i 0
  let hi := s.getD (i + 1) lo
  lo + (h - (i : ℚ)) * (hi - lo)

/-- The function `col_clean(df_series, cutoff, asc)` on one metric column of a
sector group
(`none` = NaN cell).  `Except.error ()` models the uncaught `numpy.AxisError`
raised when any value survives the trim (see the section comment); the
direction flag `asc` only affects the rank ordering, which is consumed by the
failing elementwise `zscore` application, so no direction-dependent score is
ever produced. -/
def col_clean (xs : List (Option ℚ)) (cutoff : ℚ) (asc : Bool) :
    Except Unit (List (Option ℚ)) :=
  let vals := xs.filterMap id
  if vals.isEmpty then Except.ok (xs.map (fun _ => none))
  else
    let qLow := pdQuantile cutoff vals
    let qHi := pdQuantile (1 - cutoff) vals
    let trimmed := vals.filter (fun v => decide (qLow < v) && decide (v < qHi))
    if trimmed.isEmpty then Except.ok (xs.map (fun _ => none))
    else Except.error ()

/-- One row of the merged table `data_bind` fed to `calculate_factors`:
security code, sector label, and the ten metric cells (NaN = `none`). -/
structure DataRow where
  code : String
  sector : String
  roe : Option ℚ
  gpa : Option ℚ
  cfo : Option ℚ
  pbr : Option ℚ
  pcr : Option ℚ
  per : Option ℚ
  psr : Option ℚ
  dy : Option ℚ
  m12 : Option ℚ
  kr : Option ℚ
deriving DecidableEq, Inhabited

/-- The nested application
`data_bind_group[cols].apply(lambda x: x.apply(lambda col: col_clean(col, ...)))`
for a single metric column: for each row, `col_clean` is applied to the whole
sector group of the row, and the position of the row within the group is read
back
(the merge on `[종목코드, SEC_NM_KOR]` at lines 380/409/419).  An exception in
any group aborts the whole column. -/
def zColumn (rows : List DataRow) (f : DataRow → Option ℚ) (cutoff : ℚ) (asc : Bool) :
    Except Unit (List (Option ℚ)) :=
  (List.range rows.length).mapM (fun i =>
    let r := rows.getD i default
    let grp := rows.filter (fun x => x.sector == r.sector)
    (col_clean (grp.map f) cutoff asc).map (fun zs =>
      zs.getD ((rows.take i).countP (fun x => x.sector == r.sector)) none))

/-- The row sum `DataFrame.sum(axis=1, skipna=False)` over one row of z-score
cells:
NaN as soon as any cell is NaN (lines 379, 408, 418). -/
def sumNoSkip (xs : List (Option ℚ)) : Option ℚ :=
  if xs.all (fun x => x.isSome) then some ((xs.filterMap id).sum) else none

/-- A row of the factor-score columns appended by `calculate_factors`. -/
structure FactorRow where
  code : String
  zq : Option ℚ
  zv : Option ℚ
  zm : Option ℚ
deriving DecidableEq

/-- The function `calculate_factors` (lines 361-425): per sector group and
metric column,
winsorized z-scoring via `col_clean` (cutoff 0.01; ascending for the four
price ratios, descending otherwise), then per-security sums with
`skipna=False` into the three factor columns.  All ten metric columns are
present in the merged table, so the column-existence guards all take the
positive branch.  An uncaught exception in any `col_clean` call aborts the
whole computation. -/
def calculate_factors (rows : List DataRow) : Except Unit (List FactorRow) := do
  let zRoe ← zColumn rows (fun r => r.roe) (1 / 100) false
  let zGpa ← zColumn rows (fun r => r.gpa) (1 / 100) false
  let zCfo ← zColumn rows (fun r => r.cfo) (1 / 100) false
  let zPbr ← zColumn rows (fun r => r.pbr) (1 / 100) true
  let zPcr ← zColumn rows (fun r => r.pcr) (1 / 100) true
  let zPer ← zColumn rows (fun r => r.per) (1 / 100) true
  let zPsr ← zColumn rows (fun r => r.psr) (1 / 100) true
  let zDy ← zColumn rows (fun r => r.dy) (1 / 100) false
  let zM12 ← zColumn rows (fun r => r.m12) (1 / 100) false
  let zKr ← zColumn rows (fun r => r.kr) (1 / 100) false
  return (List.range rows.length).map (fun i =>
    { code := (rows.getD i default).code
      zq := sumNoSkip [zRoe.getD i none, zGpa.getD i none, zCfo.getD i none]
      zv := sumNoSkip [zPbr.getD i none, zPcr.getD i none, zPer.getD i none,
        zPsr.getD i none, zDy.getD i none]
      zm := sumNoSkip [zM12.getD i none, zKr.getD i none] })

/-- A merged-table row whose only defined metric is ROE. -/
def roeOnlyRow (c s : String) (x : ℚ) : DataRow :=
  { code := c, sector := s, roe := some x, gpa := none, cfo := none, pbr := none,
    pcr := none, per := none, psr := none, dy := none, m12 := none, kr := none }

unseal Rat.add Rat.mul Rat.inv Rat.sub Rat.ofScientific in
/-- Claim C7: on the single-group metric column `[1, 2, 3, 4, 5]` with cutoff
0.01 the quantiles are 1.04 and 4.96, so the trim retains `{2, 3, 4}` — and
`col_clean` then raises (elementwise `zscore` on scalar ranks) for both
direction flags, instead of assigning the best z-score to value 1 (ascending)
or value 5 (descending).  No z-score is ever produced. -/
theorem col_clean_direction_example_raises :
    col_clean [some 1, some 2, some 3, some 4, some 5] (1 / 100) true = Except.error ()
    ∧ col_clean [some 1, some 2, some 3, some 4, some 5] (1 / 100) false
      = Except.error () := by
  decide

unseal Rat.add Rat.mul Rat.inv Rat.sub Rat.ofScientific in
/-- Claim C6: a universe of five securities in one sector with ROE column
`[1, 2, 3, 4, 5]` retains `{2, 3, 4}` after winsorization (at least two
retained members), yet `calculate_factors` raises the elementwise-`zscore`
`AxisError` instead of producing z-scores with mean 0 and standard deviation 1
over the retained members. -/
theorem calculate_factors_raises_on_scorable_group :
    calculate_factors
      [roeOnlyRow "A" "S" 1, roeOnlyRow "B" "S" 2, roeOnlyRow "C" "S" 3,
        roeOnlyRow "D" "S" 4, roeOnlyRow "E" "S" 5] = Except.error () := by
  decide

unseal Rat.add Rat.mul Rat.inv Rat.sub Rat.ofScientific in
/-- Claim C1: five securities in one sector whose only defined metric is ROE
(`[10, 20, 30, 40, 50]`).  Under the claim the Quality score of each security would
be defined (its ROE z-score, with the missing GPA and CFO constituents
contributing zero), but `calculate_factors` raises before any factor sum is
formed — and its factor sums use `skipna=False`, which would undefine a factor
whenever any single constituent is missing. -/
theorem calculate_factors_no_zero_substitution :
    calculate_factors
      [roeOnlyRow "A" "S" 10, roeOnlyRow "B" "S" 20, roeOnlyRow "C" "S" 30,
        roeOnlyRow "D" "S" 40, roeOnlyRow "E" "S" 50] = Except.error () := by
  decide

/-! ### Trend-strength estimator (`calculate_k_ratio`, src/app.py lines 193-250)

The per-ticker loop works on the cumulative log-return column of the ticker
(`ret_cum[[ticker]]`); the price-to-return transformation upstream of the loop
(`pct_change`, `log1p`, `cumsum`) is taken as the input columns here.  Each
per-ticker column is processed independently inside a `try/except` whose handler
stores NaN, so bad data of one ticker cannot abort the batch.  `y.dropna()` keeps the
valid observations; an empty `y` stores NaN directly; otherwise an OLS of `y`
against `[const, 0..len(y)-1]` is fit and the slope t-statistic
`reg.tvalues[1]` is stored.  In exact arithmetic: with fewer than 2 points the
fit is degenerate and the t-value is NaN; with exactly 2 points the residual
sum of squares is 0 and `df_resid = 0`, so the scale is `0/0` = NaN; with a
perfect fit on 3 or more points the standard error is 0 and the t-value is the
IEEE quotient `slope/0` (signed infinity, or NaN for a constant series). -/

/-- A stored K-ratio cell: NaN, a signed infinity, or a finite statistic.
A finite t-statistic `t` is encoded exactly as `sign(t) * t^2` (the square
root in the standard error is not rational). -/
inductive KVal where
  | nan : KVal
  | pinf : KVal
  | ninf : KVal
  | num : ℚ → KVal
deriving DecidableEq

/-- The slope t-statistic of `sm.OLS(y, [const, 0..n-1]).fit()` on the valid
observations `y`, encoded as in `KVal` (signed square of the t-value). -/
def olsTSlope (y : List ℚ) : KVal :=
  if y.length < 2 then KVal.nan
  else
    let n : ℚ := (y.length : ℚ)
    let xbar : ℚ := (n - 1) / 2
    let ybar : ℚ := y.sum / n
    let sxx : ℚ := ((List.range y.length).map (fun i => ((i : ℚ) - xbar) ^ 2)).sum
    let sxy : ℚ := (y.enum.map (fun p => ((p.1 : ℚ) - xbar) * (p.2 - ybar))).sum
    let syy : ℚ := (y.map (fun v => (v - ybar) ^ 2)).sum
    let slope := sxy / sxx
    let ssr := syy - slope * sxy
    if y.length = 2 then KVal.nan
    else if ssr = 0 then
      if 0 < slope then KVal.pinf else if slope < 0 then KVal.ninf else KVal.nan
    else
      let tsq := slope ^ 2 * sxx * (n - 2) / ssr
      if slope < 0 then KVal.num (-tsq) else KVal.num tsq

/-- One iteration of the ticker loop (lines 227-245): drop the NaN cells of
the cumulative-return column of the ticker; an empty result stores NaN, otherwise
the OLS slope t-statistic (exceptions and NaN t-values both land in NaN). -/
def kRatioCell (series : List (Option ℚ)) : KVal :=
  let y := series.filterMap id
  if y.isEmpty then KVal.nan else olsTSlope y

/-- The result table `k_ratio_bind` of `calculate_k_ratio`: one
`(ticker, K_ratio)` row per ticker, each computed from the column of that
ticker alone. -/
def k_ratio_bind (tickers : List String) (retCum : String → List (Option ℚ)) :
    List (String × KVal) :=
  tickers.map (fun t => (t, kRatioCell (retCum t)))

lemma k_ratio_bind_cons (a : String) (ts : List String)
    (retCum : String → List (Option ℚ)) :
    k_ratio_bind (a :: ts) retCum = (a, kRatioCell (retCum a)) :: k_ratio_bind ts retCum :=
  rfl

lemma lookup_k_ratio_bind (tickers : List String) (retCum : String → List (Option ℚ))
    (t : String) (h : t ∈ tickers) :
    (k_ratio_bind tickers retCum).lookup t = some (kRatioCell (retCum t)) := by
  induction tickers with
  | nil => exact absurd h (List.not_mem_nil t)
  | cons a as ih =>
    rw [k_ratio_bind_cons]
    by_cases hta : t = a
    · subst hta
      simp [List.lookup]
    · have hba : (t == a) = false := beq_eq_false_iff_ne.mpr hta
      simp only [List.lookup, hba]
      exact ih ((List.mem_cons.mp h).resolve_left hta)

/-- Claim C9: every ticker of the batch receives a K-ratio row computed from
its own return column alone (so one undefined or all-NaN series never aborts
the batch or affects another ticker), and a ticker with fewer than 2 valid
cumulative-return observations receives an undefined (NaN) K-ratio. -/
theorem k_ratio_skips_short_series (tickers : List String)
    (retCum : String → List (Option ℚ)) (t : String) (h : t ∈ tickers) :
    (k_ratio_bind tickers retCum).lookup t = some (kRatioCell (retCum t))
    ∧ (((retCum t).filterMap id).length < 2 → kRatioCell (retCum t) = KVal.nan) := by
  refine ⟨lookup_k_ratio_bind tickers retCum t h, fun hlt => ?_⟩
  unfold kRatioCell
  by_cases he : ((retCum t).filterMap id).isEmpty
  · rw [if_pos he]
  · rw [if_neg he]
    unfold olsTSlope
    rw [if_pos hlt]

unseal Rat.add Rat.mul Rat.inv Rat.sub Rat.ofScientific in
/-- Witness for C9: the column of ticker A is all NaN and gets K-ratio NaN, while
ticker B in the same batch still gets its statistic (`y = [0, 1, 3]`:
slope 3/2, t² = 27). -/
theorem k_ratio_skips_short_series_apply :
    (k_ratio_bind ["A", "B"]
      (fun s => if s == "A" then [none, none] else [some 0, some 1, some 3])).lookup "A"
      = some KVal.nan
    ∧ (k_ratio_bind ["A", "B"]
      (fun s => if s == "A" then [none, none] else [some 0, some 1, some 3])).lookup "B"
      = some (KVal.num 27) := by
  constructor
  · have h := k_ratio_skips_short_series ["A", "B"]
      (fun s => if s == "A" then [none, none] else [some 0, some 1, some 3]) "A"
      (by decide)
    rw [h.1, h.2 (by decide)]
  · have h := k_ratio_skips_short_series ["A", "B"]
      (fun s => if s == "A" then [none, none] else [some 0, some 1, some 3]) "B"
      (by decide)
    exact h.1.trans (by decide)

/-! ### Portfolio selector (`select_portfolio`, src/app.py lines 429-483)

The selector reads the three factor columns.  `existing_factors` keeps a
factor iff its column has at least one non-NaN cell; if none qualifies, the
function returns with `qvm = NaN`, `invest = "N"` and no rank column.
Otherwise the nominal weight 0.3 of each kept factor is divided by the sum of the
kept weights (lines 463-466 — this renormalization is unconditional), and
`qvm = sum over kept factors of fillna(0) * normalized weight` — always a
number.  `qvm_rank` is the descending average-tie rank and
`invest = "Y" iff qvm_rank <= top_n`. -/

/-- A row of the factor-score table consumed by `select_portfolio`. -/
structure FRow where
  code : String
  zq : Option ℚ
  zv : Option ℚ
  zm : Option ℚ
deriving DecidableEq, Inhabited

/-- A row of the `select_portfolio` output: the composite score `qvm`, the rank
column (absent in the no-factor branch), and the `invest` flag. -/
structure SRow where
  code : String
  qvm : Option ℚ
  qvmRank : Option ℚ
  invest : String
deriving DecidableEq, Inhabited

/-- The rank `Series.rank(ascending=False, na_option="last")` with the default
average
tie method, for a value `x` of the (all-defined) score column `scores`:
the count of strictly greater values plus the average position within the tie
group. -/
def rankDesc (scores : List ℚ) (x : ℚ) : ℚ :=
  ((scores.countP (fun y => decide (x < y))) : ℚ)
    + (((scores.countP (fun y => decide (y = x))) : ℚ) + 1) / 2

/-- The output row built for one security in the main branch: composite score
`q`, its descending rank within the score column, and the top-N flag. -/
def mkSRow (scores : List ℚ) (topN : ℕ) (r : FRow) (q : ℚ) : SRow :=
  { code := r.code
    qvm := some q
    qvmRank := some (rankDesc scores q)
    invest := if rankDesc scores q ≤ (topN : ℚ) then "Y" else "N" }

/-- The function `select_portfolio(data_df_with_factors, top_n_stocks)`
(lines 429-483). -/
def selectPortfolio (df : List FRow) (topN : ℕ) : List SRow :=
  let hq := df.any (fun r => r.zq.isSome)
  let hv := df.any (fun r => r.zv.isSome)
  let hm := df.any (fun r => r.zm.isSome)
  if hq || hv || hm then
    let total : ℚ := (if hq then (3 : ℚ) / 10 else 0) + (if hv then (3 : ℚ) / 10 else 0)
      + (if hm then (3 : ℚ) / 10 else 0)
    let score : FRow → ℚ := fun r =>
      (if hq then r.zq.getD 0 * (3 / 10 / total) else 0)
      + (if hv then r.zv.getD 0 * (3 / 10 / total) else 0)
      + (if hm then r.zm.getD 0 * (3 / 10 / total) else 0)
    let scores := df.map score
    df.map (fun r => mkSRow scores topN r (score r))
  else
    df.map (fun r => { code := r.code, qvm := none, qvmRank := none, invest := "N" })

lemma mkSRow_invest_iff (scores : List ℚ) (topN : ℕ) (r : FRow) (q : ℚ) :
    (mkSRow scores topN r q).invest = "Y"
      ↔ ∃ rk, (mkSRow scores topN r q).qvmRank = some rk ∧ rk ≤ (topN : ℚ) := by
  unfold mkSRow
  by_cases h : rankDesc scores q ≤ (topN : ℚ)
  · rw [if_pos h]
    exact ⟨fun _ => ⟨_, rfl, h⟩, fun _ => rfl⟩
  · rw [if_neg h]
    constructor
    · intro hy
      have hNY : ("N" : String) ≠ "Y" := by decide
      exact absurd hy hNY
    · rintro ⟨rk, hrk, hle⟩
      exact absurd (Option.some.inj hrk ▸ hle) h

lemma mkSRow_flag_yn (scores : List ℚ) (topN : ℕ) (r : FRow) (q : ℚ) :
    (mkSRow scores topN r q).invest = "Y" ∨ (mkSRow scores topN r q).invest = "N" := by
  unfold mkSRow
  by_cases h : rankDesc scores q ≤ (topN : ℚ)
  · exact Or.inl (by rw [if_pos h])
  · exact Or.inr (by rw [if_neg h])

unseal Rat.add Rat.mul Rat.inv Rat.sub Rat.ofScientific in
/-- Claim C2, counterexample: in a universe where every factor column has a
defined value, the security with Quality = 2.0, Value = NaN, Momentum = 1.0
receives composite score (1/3)·2 + (1/3)·0 + (1/3)·1 = 1, not
0.3·2 + 0.3·0 + 0.3·1 = 0.9: the 0.3 weights are renormalized to 1/3
unconditionally, not only when a factor is undefined across the universe. -/
theorem qvm_weight_renormalization_cx :
    ((selectPortfolio
        [⟨"A", some 2, none, some 1⟩, ⟨"B", none, some (1 / 2), none⟩] 20).map
      (fun a => a.qvm) = [some 1, some (1 / 6)])
    ∧ (1 : ℚ) ≠ 9 / 10 := by
  decide

/-- Claim C2, amended: whenever each of the three factor columns has at least
one defined value in the universe, the composite score of every security is
the
mean of its three factor scores with NaN replaced by zero — the nominal 0.3
weights are renormalized to 0.3/0.9 = 1/3 each. -/
theorem qvm_equal_renormalized_weights (df : List FRow) (n : ℕ)
    (hq : df.any (fun r => r.zq.isSome) = true)
    (hv : df.any (fun r => r.zv.isSome) = true)
    (hm : df.any (fun r => r.zm.isSome) = true) :
    (selectPortfolio df n).map (fun a => a.qvm)
      = df.map (fun r => some ((r.zq.getD 0 + r.zv.getD 0 + r.zm.getD 0) / 3)) := by
  unfold selectPortfolio
  rw [hq, hv, hm]
  simp only [Bool.or_self, if_true, List.map_map]
  have h310 : ((3 : ℚ) / 10) / (3 / 10 + 3 / 10 + 3 / 10) = 1 / 3 := by norm_num
  refine List.map_congr_left (fun r hr => ?_)
  simp only [Function.comp_apply, mkSRow, h310]
  congr 1
  ring

unseal Rat.add Rat.mul Rat.inv Rat.sub Rat.ofScientific in
/-- Witness for the amended C2: the two-security universe of the
counterexample, scored by the amended formula. -/
theorem qvm_equal_renormalized_weights_apply :
    (selectPortfolio
        [⟨"A", some 2, none, some 1⟩, ⟨"B", none, some (1 / 2), none⟩] 20).map
      (fun a => a.qvm) = [some 1, some (1 / 6)] := by
  rw [qvm_equal_renormalized_weights _ 20 (by decide) (by decide) (by decide)]
  decide

lemma mkSRow_qvm (scores : List ℚ) (topN : ℕ) (r : FRow) (q : ℚ) :
    (mkSRow scores topN r q).qvm = some q :=
  rfl

lemma mkSRow_qvmRank (scores : List ℚ) (topN : ℕ) (r : FRow) (q : ℚ) :
    (mkSRow scores topN r q).qvmRank = some (rankDesc scores q) :=
  rfl

lemma snd_eq_of_mem_zip_map {α β : Type} (f : α → β) :
    ∀ (l : List α) (p : α × β), p ∈ l.zip (l.map f) → p.2 = f p.1
  | [], p, hp => by simp at hp
  | a :: l, p, hp => by
      rw [List.map_cons, List.zip_cons_cons] at hp
      rcases List.mem_cons.mp hp with rfl | h
      · rfl
      · exact snd_eq_of_mem_zip_map f l p h

lemma countP_gt_add_countP_eq_le (scores : List ℚ) (x y : ℚ) (hlt : y < x) :
    scores.countP (fun z => decide (x < z)) + scores.countP (fun z => decide (z = x))
      ≤ scores.countP (fun z => decide (y < z)) := by
  induction scores with
  | nil => simp
  | cons a l ih =>
    rw [List.countP_cons, List.countP_cons, List.countP_cons]
    by_cases h1 : x < a
    · have h2 : ¬ a = x := by
        intro h
        rw [h] at h1
        exact lt_irrefl x h1
      have h3 : y < a := lt_trans hlt h1
      simp [h1, h2, h3]
      omega
    · by_cases h2 : a = x
      · subst h2
        simp [h1, hlt]
        omega
      · by_cases h3 : y < a
        · simp [h1, h2, h3]
          omega
        · simp [h1, h2, h3]
          omega

/-- Strict rank ordering of `Series.rank(ascending=False)` with average ties:
a strictly larger member of the score column receives a strictly smaller
(better) rank. -/
lemma rankDesc_lt_of_gt (scores : List ℚ) (x y : ℚ) (hx : x ∈ scores) (hlt : y < x) :
    rankDesc scores x < rankDesc scores y := by
  have hT : 0 < scores.countP (fun z => decide (z = x)) :=
    List.countP_pos_iff.mpr ⟨x, hx, by simp⟩
  have hG := countP_gt_add_countP_eq_le scores x y hlt
  unfold rankDesc
  have hG2 : ((scores.countP (fun z => decide (x < z)) : ℚ)
        + ((scores.countP (fun z => decide (z = x))) : ℚ))
      ≤ ((scores.countP (fun z => decide (y < z))) : ℚ) := by
    exact_mod_cast hG
  have hT2 : (1 : ℚ) ≤ ((scores.countP (fun z => decide (z = x))) : ℚ) := by
    exact_mod_cast hT
  have hTy : (0 : ℚ) ≤ ((scores.countP (fun z => decide (z = y))) : ℚ) := by
    positivity
  linarith

unseal Rat.add Rat.mul Rat.inv Rat.sub Rat.ofScientific in
/-- Claim C3, counterexample: in the three-security universe A (Quality 1),
B (all three factor scores undefined), C (Quality -1), the all-undefined
security B receives the defined composite score 0 — `fillna(0)` at line 475
runs before ranking, so its composite is not undefined — and rank 2, strictly
before security C whose defined composite is -1 (rank 3).  The claim requires
B to be ranked after every security with a defined composite score. -/
theorem undefined_factor_rank_not_last_cx :
    ((selectPortfolio [⟨"A", some 1, none, none⟩, ⟨"B", none, none, none⟩,
        ⟨"C", some (-1), none, none⟩] 20).map (fun a => (a.qvm, a.qvmRank))
      = [(some 1, some 1), (some 0, some 2), (some (-1), some 3)])
    ∧ (2 : ℚ) < 3 := by
  decide

/-- Claim C3, amended: whenever some factor column has a defined value, a
security with all three factor scores undefined is zero-substituted to the
defined composite score 0 and is ranked at that value — after positive and
before negative composites rather than last: a strictly higher composite
always receives a strictly smaller rank.  The `invest` flag is `"Y"` exactly
when the descending composite rank of the security exists and is at most the
configured top-N.  A composite score is undefined only in the branch where no
factor has any defined value, which produces no rank at all. -/
theorem selection_rank_flag_amended (df : List FRow) (n : ℕ) :
    (df.any (fun r => r.zq.isSome || r.zv.isSome || r.zm.isSome) = true →
      ∀ p ∈ df.zip (selectPortfolio df n),
        p.1.zq = none → p.1.zv = none → p.1.zm = none → p.2.qvm = some 0)
    ∧ (∀ a ∈ selectPortfolio df n, ∀ b ∈ selectPortfolio df n,
        ∀ qa qb ra rb, a.qvm = some qa → b.qvm = some qb →
          a.qvmRank = some ra → b.qvmRank = some rb → qb < qa → ra < rb)
    ∧ (∀ a ∈ selectPortfolio df n,
        a.invest = "Y" ↔ ∃ q, a.qvmRank = some q ∧ q ≤ (n : ℚ)) := by
  refine ⟨?_, ?_, ?_⟩
  · intro h p hp h1 h2 h3
    have hc : (df.any (fun r => r.zq.isSome) || df.any (fun r => r.zv.isSome)
        || df.any (fun r => r.zm.isSome)) = true := by
      simp only [List.any_eq_true, Bool.or_eq_true] at h ⊢
      rcases h with ⟨r, hr, (h | h) | h⟩
      · exact Or.inl (Or.inl ⟨r, hr, h⟩)
      · exact Or.inl (Or.inr ⟨r, hr, h⟩)
      · exact Or.inr ⟨r, hr, h⟩
    unfold selectPortfolio at hp
    rw [if_pos hc] at hp
    have hsnd := snd_eq_of_mem_zip_map _ df p hp
    rw [hsnd, mkSRow_qvm]
    simp [h1, h2, h3]
  · by_cases hc : (df.any (fun r => r.zq.isSome) || df.any (fun r => r.zv.isSome)
        || df.any (fun r => r.zm.isSome)) = true
    · intro a ha b hb qa qb ra rb hqa hqb hra hrb hlt
      unfold selectPortfolio at ha hb
      rw [if_pos hc] at ha hb
      rcases List.mem_map.mp ha with ⟨r, hr, rfl⟩
      rcases List.mem_map.mp hb with ⟨r2, hr2, rfl⟩
      rw [mkSRow_qvm] at hqa hqb
      rw [mkSRow_qvmRank] at hra hrb
      injection hqa with hqa
      injection hqb with hqb
      injection hra with hra
      injection hrb with hrb
      subst hqa
      subst hqb
      subst hra
      subst hrb
      exact rankDesc_lt_of_gt _ _ _ (List.mem_map_of_mem _ hr) hlt
    · intro a ha b hb qa qb ra rb hqa hqb hra hrb hlt
      unfold selectPortfolio at ha
      rw [if_neg hc] at ha
      rcases List.mem_map.mp ha with ⟨r, hr, rfl⟩
      simp at hqa
  · intro a ha
    unfold selectPortfolio at ha
    by_cases hc : (df.any (fun r => r.zq.isSome) || df.any (fun r => r.zv.isSome)
        || df.any (fun r => r.zm.isSome)) = true
    · rw [if_pos hc] at ha
      rcases List.mem_map.mp ha with ⟨r, hr, rfl⟩
      exact mkSRow_invest_iff _ _ _ _
    · rw [if_neg hc] at ha
      rcases List.mem_map.mp ha with ⟨r, hr, rfl⟩
      constructor
      · intro hy
        have hNY : ("N" : String) ≠ "Y" := by decide
        exact absurd hy hNY
      · rintro ⟨q, hq, _⟩
        exact absurd hq (by simp)

unseal Rat.add Rat.mul Rat.inv Rat.sub Rat.ofScientific in
/-- Witness for the amended C3: in the three-security universe A (Quality 1),
B (all undefined), C (Quality -1) with top-N 1, the theorem yields composite 0
for B, the strict rank ordering 1 < 2 between A and B, and the flag Y for the
rank-1 security A. -/
theorem selection_rank_flag_amended_apply :
    (((⟨"B", none, none, none⟩ : FRow), (⟨"B", some 0, some 2, "N"⟩ : SRow))
        ∈ ([⟨"A", some 1, none, none⟩, ⟨"B", none, none, none⟩,
            ⟨"C", some (-1), none, none⟩] : List FRow).zip
          (selectPortfolio [⟨"A", some 1, none, none⟩, ⟨"B", none, none, none⟩,
            ⟨"C", some (-1), none, none⟩] 1))
    ∧ (⟨"B", some 0, some 2, "N"⟩ : SRow).qvm = some 0
    ∧ (1 : ℚ) < 2
    ∧ (⟨"A", some 1, some 1, "Y"⟩ : SRow).invest = "Y" := by
  have h := selection_rank_flag_amended
    [⟨"A", some 1, none, none⟩, ⟨"B", none, none, none⟩, ⟨"C", some (-1), none, none⟩] 1
  have hzip : ((⟨"B", none, none, none⟩ : FRow), (⟨"B", some 0, some 2, "N"⟩ : SRow))
      ∈ ([⟨"A", some 1, none, none⟩, ⟨"B", none, none, none⟩,
          ⟨"C", some (-1), none, none⟩] : List FRow).zip
        (selectPortfolio [⟨"A", some 1, none, none⟩, ⟨"B", none, none, none⟩,
          ⟨"C", some (-1), none, none⟩] 1) := by decide
  have hA : (⟨"A", some 1, some 1, "Y"⟩ : SRow)
      ∈ selectPortfolio [⟨"A", some 1, none, none⟩, ⟨"B", none, none, none⟩,
          ⟨"C", some (-1), none, none⟩] 1 := by decide
  have hB : (⟨"B", some 0, some 2, "N"⟩ : SRow)
      ∈ selectPortfolio [⟨"A", some 1, none, none⟩, ⟨"B", none, none, none⟩,
          ⟨"C", some (-1), none, none⟩] 1 := by decide
  refine ⟨hzip, ?_, ?_, ?_⟩
  · exact h.1 (by decide) _ hzip rfl rfl rfl
  · exact h.2.1 _ hA _ hB 1 0 1 2 rfl rfl rfl rfl (by norm_num)
  · exact (h.2.2 _ hA).mpr ⟨1, rfl, by norm_num⟩

/-- Claim C8: `select_portfolio` is deterministic — two runs on equal
factor-score tables with equal top-N produce identical invest flags and
identical ranks. -/
theorem selection_deterministic (dfa dfb : List FRow) (na nb : ℕ)
    (hdf : dfa = dfb) (hn : na = nb) :
    (selectPortfolio dfa na).map (fun a => a.invest)
      = (selectPortfolio dfb nb).map (fun a => a.invest)
    ∧ (selectPortfolio dfa na).map (fun a => a.qvmRank)
      = (selectPortfolio dfb nb).map (fun a => a.qvmRank) := by
  subst hdf
  subst hn
  exact ⟨rfl, rfl⟩

/-- Witness for C8: the determinism theorem applied at a concrete table. -/
theorem selection_deterministic_apply :
    (selectPortfolio [⟨"A", some 1, none, none⟩] 1).map (fun a => a.invest)
      = (selectPortfolio [⟨"A", some 1, none, none⟩] 1).map (fun a => a.invest)
    ∧ (selectPortfolio [⟨"A", some 1, none, none⟩] 1).map (fun a => a.qvmRank)
      = (selectPortfolio [⟨"A", some 1, none, none⟩] 1).map (fun a => a.qvmRank) :=
  selection_deterministic _ _ _ _ rfl rfl

/-- Claim C10: whenever at least one factor column has at least one defined
value, `select_portfolio` keeps every input security (same codes in order) and
gives each one a defined numeric composite score and a flag that is `"Y"` or
`"N"`. -/
theorem selection_total_flags (df : List FRow) (n : ℕ)
    (h : df.any (fun r => r.zq.isSome || r.zv.isSome || r.zm.isSome) = true) :
    ((selectPortfolio df n).map (fun a => a.code) = df.map (fun r => r.code))
    ∧ ∀ a ∈ selectPortfolio df n, a.qvm.isSome ∧ (a.invest = "Y" ∨ a.invest = "N") := by
  have hc : (df.any (fun r => r.zq.isSome) || df.any (fun r => r.zv.isSome)
      || df.any (fun r => r.zm.isSome)) = true := by
    simp only [List.any_eq_true, Bool.or_eq_true] at h ⊢
    rcases h with ⟨r, hr, (h | h) | h⟩
    · exact Or.inl (Or.inl ⟨r, hr, h⟩)
    · exact Or.inl (Or.inr ⟨r, hr, h⟩)
    · exact Or.inr ⟨r, hr, h⟩
  unfold selectPortfolio
  rw [if_pos hc]
  constructor
  · rw [List.map_map]
    rfl
  · intro a ha
    rcases List.mem_map.mp ha with ⟨r, hr, rfl⟩
    exact ⟨by simp [mkSRow], mkSRow_flag_yn _ _ _ _⟩

unseal Rat.add Rat.mul Rat.inv Rat.sub Rat.ofScientific in
/-- Witness for C10: a one-security universe whose only defined factor is
Momentum still yields a full output row with a defined composite score and a
Y/N flag. -/
theorem selection_total_flags_apply :
    ((selectPortfolio [⟨"A", none, none, some 2⟩] 1).map (fun a => a.code) = ["A"])
    ∧ ((selectPortfolio [⟨"A", none, none, some 2⟩] 1).all
        (fun a => a.qvm.isSome && (a.invest == "Y" || a.invest == "N")) = true) := by
  have h := selection_total_flags [⟨"A", none, none, some 2⟩] 1 (by decide)
  exact ⟨h.1.trans (by decide), by decide⟩

end StockRealValue
